import Mathlib

/-!
Verification of the ParVu paginated query engine core: a shallow embedding of
`src/engine.py` (`QueryEngine`), `src/query_revisor.py` (`Revisor`),
`src/schemas.py` (`BadQueryException`) and the `QueryWorker` thread of
`src/main_window.py`.  Strings are modelled as Lean `String`/`List Char`;
the DuckDB connection is modelled by explicit oracles (a row-count function,
a validation function, a fetch function); Python exceptions are modelled by
`Except`/`Option` results.  Character classes (`\s`, `\w`, `str.lower`) are
modelled on the ASCII range, which covers every character the application's
SQL and settings use.
-/

/-- Python regex `\s` / `str.split()` / `str.strip()` whitespace, ASCII range:
space, tab, newline, carriage return, vertical tab, form feed. -/
def isPySpace (c : Char) : Bool :=
  (c == ' ') || (c == '\t') || (c == '\n') || (c == '\r') ||
  (c == Char.ofNat 11) || (c == Char.ofNat 12)

/-- Python regex `\w` (word character), ASCII range: letters, digits, underscore. -/
def isWordChar (c : Char) : Bool :=
  c.isAlphanum || (c == '_')

/-- An ASCII uppercase letter (codepoint 65–90). -/
def isAsciiUpper (c : Char) : Bool :=
  decide (65 ≤ c.toNat) && decide (c.toNat ≤ 90)

/-- Case-insensitive character equality, as used by `re.IGNORECASE` (ASCII range):
both sides are lowercased and compared. -/
def ciEq (a b : Char) : Bool :=
  a.toLower == b.toLower

/-- A single-quote character, written by codepoint. -/
def squo : String := String.mk [Char.ofNat 39]

namespace Revisor

/-- `schemas.BadQueryException`: `name`, `message` and an optional fixed `result`. -/
structure BadQueryException where
  name : String
  message : String
  result : Option String := none
deriving DecidableEq, Repr

/-- Scanner for `re.sub(r'\s+', ' ', query)`: every maximal run of whitespace
becomes one space.  `prevSpace` records whether the previously read character
was whitespace (so that only the first character of a run emits the space). -/
def collapseAux : Bool → List Char → List Char
  | _, [] => []
  | prevSpace, c :: cs =>
    if isPySpace c then
      if prevSpace then collapseAux true cs else ' ' :: collapseAux true cs
    else
      c :: collapseAux false cs

/-- `re.sub(r'\s+', ' ', query)`. -/
def collapseWs (l : List Char) : List Char :=
  collapseAux false l

/-- Python `str.strip()` (ASCII whitespace): drop whitespace from both ends. -/
def stripChars (l : List Char) : List Char :=
  ((l.dropWhile isPySpace).reverse.dropWhile isPySpace).reverse

/-- `Revisor.clear_q`: `re.sub(r'\s+', ' ', query).strip().lower()`. -/
def clear_q (q : List Char) : List Char :=
  (stripChars (collapseWs q)).map Char.toLower

/-- Python `str.split()` (no separator): maximal non-whitespace runs, in order,
with no empty tokens.  `cur` accumulates the current token in reverse. -/
def splitAux (cur : List Char) : List Char → List (List Char)
  | [] => if cur.isEmpty then [] else [cur.reverse]
  | c :: cs =>
    if isPySpace c then
      if cur.isEmpty then splitAux [] cs else cur.reverse :: splitAux [] cs
    else
      splitAux (c :: cur) cs

/-- Python `str.split()`. -/
def splitTokens (l : List Char) : List (List Char) :=
  splitAux [] l

/-- Python substring test `pat in l`. -/
def containsSub (pat : List Char) : List Char → Bool
  | [] => pat.isEmpty
  | c :: cs => pat.isPrefixOf (c :: cs) || containsSub pat cs

/-- One attempt of the regex `limit\s+([0-9]+)` anchored at the head of `l`:
the literal `limit`, then one or more whitespace characters, then the
(greedy, maximal) group of one or more digits; returns the digit group. -/
def matchLimitAt (l : List Char) : Option (List Char) :=
  match l with
  | 'l' :: 'i' :: 'm' :: 'i' :: 't' :: rest =>
    let sp := rest.takeWhile isPySpace
    let afterSp := rest.dropWhile isPySpace
    if sp.isEmpty then none
    else
      let ds := afterSp.takeWhile Char.isDigit
      if ds.isEmpty then none else some ds
  | _ => none

/-- `re.findall(r'limit\s+([0-9]+)', q)[0]`: the digit group of the leftmost
match, if any match exists. -/
def findLimit : List Char → Option (List Char)
  | [] => none
  | c :: cs =>
    match matchLimitAt (c :: cs) with
    | some ds => some ds
    | none => findLimit cs

/-- Numeric value of a digit string, as Python `int` reads it. -/
def digitsToNat (l : List Char) : Nat :=
  l.foldl (fun acc c => acc * 10 + (c.toNat - 48)) 0

/-- Python `str.replace(pat, rep)` for a non-empty `pat`, with `fuel` bounding
the scan (the scan consumes at least one character per step, so `fuel =
l.length` is always enough). -/
def replaceAllFuel (pat rep : List Char) : Nat → List Char → List Char
  | 0, l => l
  | _ + 1, [] => []
  | fuel + 1, c :: cs =>
    if pat.isPrefixOf (c :: cs) then
      rep ++ replaceAllFuel pat rep fuel (cs.drop (pat.length - 1))
    else
      c :: replaceAllFuel pat rep fuel cs

/-- Python `str.replace(pat, rep)` (left-to-right, non-overlapping), for the
non-empty patterns the revisor uses. -/
def replaceAll (pat rep l : List Char) : List Char :=
  replaceAllFuel pat rep l.length l

/-- The `Bad Limit Range` exception built by `Revisor._rule_limit_range`,
with `result` the normalized query in which every occurrence of
`limit <n>` is replaced by `LIMIT <maxRows>`. -/
def badLimitExc (maxRows : Nat) (q : List Char) (n : Nat) : BadQueryException :=
  { name := "Bad Limit Range",
    message := "The LIMIT value must be between 0 and " ++ toString maxRows ++ ".",
    result := some (String.mk (replaceAll ("limit " ++ toString n).data
                                          ("LIMIT " ++ toString maxRows).data q)) }

/-- `Revisor._rule_limit_range`, run over the normalized query `q`;
`maxRows` is `int(settings.max_rows)`.  Returns `some e` when the rule
produces a `BadQueryException`, `none` when the rule passes. -/
def rule_limit_range (maxRows : Nat) (q : List Char) : Option BadQueryException :=
  if containsSub "limit".data q then
    match findLimit q with
    | none => some { name := "No LIMIT", message := "The query must contain a limit." }
    | some ds =>
      if !ds.all Char.isDigit then
        some { name := "Parse Error",
               message := "Unable to parse LIMIT valie: " ++ squo ++ String.mk ds ++ squo }
      else
        let n := digitsToNat ds
        if n ≤ maxRows then none else some (badLimitExc maxRows q n)
  else none

/-- The five tokens `Revisor._rule_no_joins` forbids. -/
def joinWords : List (List Char) :=
  ["left".data, "right".data, "full".data, "inner".data, "join".data]

/-- Does the normalized query contain a forbidden join token?
(`{'left','right','full','inner','join'}.intersection(set(q.split()))`). -/
def hasJoinToken (q : List Char) : Bool :=
  (splitTokens q).any (fun t => joinWords.contains t)

/-- The exception built by `Revisor._rule_no_joins`. -/
def joinsExc : BadQueryException :=
  { name := "Joins",
    message := "Joins are not allowed in the query - app is multi-tabled yet..." }

/-- `Revisor._rule_no_joins`, run over the normalized query. -/
def rule_no_joins (q : List Char) : Option BadQueryException :=
  if hasJoinToken q then some joinsExc else none

/-- Result of `Revisor.run`: `True` or a `BadQueryException`. -/
inductive RunResult where
  | ok : RunResult
  | bad (e : BadQueryException) : RunResult
deriving DecidableEq, Repr

/-- `Revisor.run`: normalizes the query (`__init__` applies `clear_q`), then
runs `_rule_limit_range` and `_rule_no_joins` in that order, returning the
first exception produced, else `True`. -/
def run (maxRows : Nat) (query : String) : RunResult :=
  let q := clear_q query.data
  match rule_limit_range maxRows q with
  | some e => .bad e
  | none =>
    match rule_no_joins q with
    | some e => .bad e
    | none => .ok

/-- Whitespace is in collapsed form: every whitespace character is a plain
space, and no two consecutive characters are both whitespace. -/
def wsCollapsed : List Char → Bool
  | [] => true
  | [c] => !isPySpace c || (c == ' ')
  | c :: d :: rest =>
    (!isPySpace c || ((c == ' ') && !isPySpace d)) && wsCollapsed (d :: rest)

/-- Neither end of the list is whitespace. -/
def strippedEnds (l : List Char) : Bool :=
  (match l.head? with
   | none => true
   | some c => !isPySpace c) &&
  (match l.getLast? with
   | none => true
   | some c => !isPySpace c)

/-- No ASCII uppercase letter remains. -/
def noUppercase (l : List Char) : Bool :=
  l.all (fun c => ! isAsciiUpper c)

end Revisor

namespace QueryEngine

/-- The final path component (`pathlib.PurePath.name`) of a path string in
normal form (the model treats the path string as already normalized). -/
def pathName (p : List Char) : List Char :=
  (p.reverse.takeWhile (fun c => c ≠ '/')).reverse

/-- `pathlib.PurePath.suffix`: the extension of the final component, from its
last dot, empty when the last dot is leading or trailing or absent. -/
def pathSuffix (p : List Char) : List Char :=
  let name := pathName p
  let rev := name.reverse
  match rev.findIdx? (fun c => c = '.') with
  | none => []
  | some j =>
    if 0 < j ∧ j + 1 < name.length then (rev.take (j + 1)).reverse else []

/-- `self.file_path.suffix.lower()`, as used by `_build_file_reader_query`. -/
def lowerSuffix (p : String) : List Char :=
  (pathSuffix p.data).map Char.toLower

/-- `QueryEngine._build_file_reader_query`: dispatch on the lowercased file
suffix to a lazy reader query, else the `ValueError` the constructor raises. -/
def build_file_reader_query (p : String) : Except String String :=
  let suffix := lowerSuffix p
  if suffix = ".parquet".data then
    .ok ("SELECT * FROM read_parquet(" ++ squo ++ p ++ squo ++ ")")
  else if suffix = ".csv".data then
    .ok ("SELECT * FROM read_csv(" ++ squo ++ p ++ squo ++ ")")
  else if suffix = ".json".data then
    .ok ("SELECT * FROM read_json(" ++ squo ++ p ++ squo ++ ")")
  else
    .error ("Unsupported file format: " ++ String.mk suffix)

/-- `QueryEngine._wrap_query`: wrap in a subquery so LIMIT/OFFSET can be
appended without conflicting with a LIMIT inside the query. -/
def wrap_query (q : String) : String :=
  "SELECT * FROM (" ++ q ++ ")"

/-- Does the regex `\b<name>\b` (with `re.IGNORECASE`) match at the head of
`l`?  `prevW` says whether the character just before `l` is a word character
(`false` at the start of the string).  For a non-empty all-word-character
`name` — the shape the virtual table name has — the leading `\b` holds
exactly when the preceding character is not a word character, and the
trailing `\b` holds exactly when the character after the match is absent or
not a word character. -/
def matchCond (name : List Char) (prevW : Bool) (l : List Char) : Bool :=
  !prevW && ciStarts name l && boundaryAfter (l.drop name.length)
where
  /-- is `name` a case-insensitive prefix of `l`? -/
  ciStarts : List Char → List Char → Bool
    | [], _ => true
    | _ :: _, [] => false
    | a :: as, b :: bs => ciEq a b && ciStarts as bs
  /-- the trailing `\b`: end of string or a non-word character. -/
  boundaryAfter : List Char → Bool
    | [] => true
    | c :: _ => !isWordChar c

/-- The scan of `re.sub` for pattern `\b<name>\b` (IGNORECASE): at each
position, if the pattern matches, emit `repl` and resume after the match
(the character before the resume point is then the last matched character,
a word character); otherwise copy one character.  `fuel` bounds the scan;
each step consumes at least one input character, so `fuel = l.length`
always suffices. -/
def substFuel (name repl : List Char) : Nat → Bool → List Char → List Char
  | 0, _, l => l
  | _ + 1, _, [] => []
  | fuel + 1, prevW, c :: cs =>
    if matchCond name prevW (c :: cs) then
      repl ++ substFuel name repl fuel true (cs.drop (name.length - 1))
    else
      c :: substFuel name repl fuel (isWordChar c) cs

/-- The `re.sub` scan started mid-string: `prevW` tells whether the character
just before `l` is a word character. -/
def substFrom (name repl : List Char) (prevW : Bool) (l : List Char) : List Char :=
  substFuel name repl l.length prevW l

/-- `re.sub(rf'\b{re.escape(name)}\b', repl, l, flags=re.IGNORECASE)` for a
non-empty all-word-character `name`. -/
def substAux (name repl l : List Char) : List Char :=
  substFrom name repl false l

/-- Does `\b<name>\b` (IGNORECASE) match anywhere in `l`, when the character
just before `l` has word-character status `prevW`? -/
def hasMatch (name : List Char) : Bool → List Char → Bool
  | _, [] => false
  | prevW, c :: cs => matchCond name prevW (c :: cs) || hasMatch name (isWordChar c) cs

/-- Scanning through `a` with the string `rest` following it: does
`\b<name>\b` fail to match at every position inside `a`?  (A match attempt at
a position in `a` sees the remainder of `a` followed by `rest`.) -/
def scanNoMatch (name : List Char) : Bool → List Char → List Char → Bool
  | _, [], _ => true
  | prevW, c :: cs, rest =>
    !matchCond name prevW (c :: (cs ++ rest)) && scanNoMatch name (isWordChar c) cs rest

/-- Word-character status of the last character of `pw-prefixed` list `l`:
`pw` when `l` is empty, else `isWordChar` of its last element. -/
def endWord (pw : Bool) : List Char → Bool
  | [] => pw
  | c :: cs => endWord (isWordChar c) cs

/-- Case-insensitive equality of two character lists of the same length. -/
def ciMatch : List Char → List Char → Bool
  | [], [] => true
  | a :: as, b :: bs => ciEq a b && ciMatch as bs
  | _, _ => false

/-- `QueryEngine._substitute_table_name`: replace every whole-word,
case-insensitive occurrence of the virtual table name by the parenthesized
file-reader sub-query. -/
def substitute_table_name (table_name file_reader_query : String) (query : String) : String :=
  String.mk (substAux table_name.data ('(' :: file_reader_query.data ++ [')']) query.data)

/-- `(total_rows + page_size - 1) // page_size`: the ceiling-division page
count formula shared by `__init__` and `reset_query`. -/
def pagesNeeded (rows ps : Nat) : Nat :=
  (rows + ps - 1) / ps

/-- The pagination-relevant state of `engine.QueryEngine`.  The DuckDB
connection is not part of the state; it is modelled by oracles passed to the
operations: `rc` maps a query to the row count `_count_rows` reports for it,
`valid` maps a validation query to `none` (no exception) or `some msg`. -/
structure State where
  file_path : String
  page_size : Nat
  table_name : String
  file_reader_query : String
  current_query : String
  total_rows : Nat
  total_pages : Nat
deriving DecidableEq, Repr

/-- `QueryEngine.__init__`: build the file-reader query (propagating its
`ValueError`), start from it as the current query, count rows and derive the
page count without the `max 1` clamp. -/
def init (rc : String → Nat) (fp : String) (ps : Nat) (tn : String) :
    Except String State :=
  match build_file_reader_query fp with
  | .error m => .error m
  | .ok frq =>
    .ok { file_path := fp, page_size := ps, table_name := tn,
          file_reader_query := frq, current_query := frq,
          total_rows := rc frq,
          total_pages := pagesNeeded (rc frq) ps }

/-- `QueryEngine.execute_query`: substitute the table name, validate the
wrapped query with `LIMIT 0` (the oracle `valid` reports the DuckDB
exception, if any), and on success update the query state, clamping the page
count to at least 1.  Returns the new state and the `(success, error)` pair. -/
def execute_query (rc : String → Nat) (valid : String → Option String)
    (s : State) (q : String) : State × Bool × String :=
  let subq := substitute_table_name s.table_name s.file_reader_query q
  match valid (wrap_query subq ++ " LIMIT 0") with
  | some msg => (s, false, msg)
  | none =>
    ({ s with current_query := subq,
              total_rows := rc subq,
              total_pages := max 1 (pagesNeeded (rc subq) s.page_size) },
     true, "")

/-- `QueryEngine.sort_by_column`: wrap the current query in an `ORDER BY`,
validate it, and on success update the query state with the `max 1` clamp. -/
def sort_by_column (rc : String → Nat) (valid : String → Option String)
    (s : State) (column : String) (ascending : Bool) : State × Bool × String :=
  let ord := if ascending then "ASC" else "DESC"
  let nq := "SELECT * FROM (" ++ s.current_query ++ ") ORDER BY " ++ column ++ " " ++ ord
  match valid (wrap_query nq ++ " LIMIT 0") with
  | some msg => (s, false, msg)
  | none =>
    ({ s with current_query := nq,
              total_rows := rc nq,
              total_pages := max 1 (pagesNeeded (rc nq) s.page_size) },
     true, "")

/-- `QueryEngine.reset_query`: back to the file-reader query; page count
computed without the `max 1` clamp. -/
def reset_query (rc : String → Nat) (s : State) : State :=
  { s with current_query := s.file_reader_query,
           total_rows := rc s.file_reader_query,
           total_pages := pagesNeeded (rc s.file_reader_query) s.page_size }

/-- Result of running a fetch on the DuckDB connection: a list of rows, or
the exception message. -/
inductive FetchResult (Row : Type) where
  | ok (rows : List Row) : FetchResult Row
  | err (msg : String) : FetchResult Row

/-- The paginated query `get_page` sends to DuckDB for (1-indexed) page `p`:
the wrapped current query with `LIMIT page_size OFFSET (p-1)*page_size`
appended.  `get_page` only sends it when `1 ≤ p`, so the Python offset
`(p - 1) * page_size` equals `(p - 1).toNat * page_size`. -/
def paginated_query (s : State) (p : Int) : String :=
  wrap_query s.current_query ++ " LIMIT " ++ toString s.page_size ++
    " OFFSET " ++ toString ((p - 1).toNat * s.page_size)

/-- `QueryEngine.get_page`: empty dataframe for a page number outside
`1..total_pages`; otherwise fetch the paginated query through the connection
(oracle `db`), returning an empty dataframe if the fetch raises.  The state
is returned alongside to express that the method leaves it unchanged. -/
def get_page {Row : Type} (db : String → FetchResult Row) (s : State) (p : Int) :
    State × List Row :=
  if p < 1 ∨ p > (s.total_pages : Int) then (s, [])
  else
    match db (paginated_query s p) with
    | .ok rows => (s, rows)
    | .err _ => (s, [])

end QueryEngine

namespace QueryWorker

/-- A signal emitted by `main_window.QueryWorker` back to the UI thread. -/
inductive Signal (Row : Type) where
  | finished (df : List Row) : Signal Row
  | error (msg : String) : Signal Row
deriving DecidableEq, Repr

/-- Outcome of `engine.execute_query` as observed by the worker: either it
raises, or it returns a `(success, error_message)` pair. -/
inductive ExecOutcome where
  | raises (msg : String) : ExecOutcome
  | returns (success : Bool) (msg : String) : ExecOutcome
deriving DecidableEq, Repr

/-- Outcome of `engine.get_page` as observed by the worker: either it raises,
or it returns a dataframe. -/
inductive PageOutcome (Row : Type) where
  | raises (msg : String) : PageOutcome Row
  | returns (df : List Row) : PageOutcome Row
deriving DecidableEq, Repr

/-- `QueryWorker.run`: when a (truthy, i.e. non-empty) query was given,
execute it first — emitting `error` and stopping on a reported failure;
then fetch the page and emit `finished`, any raised exception being caught
and emitted as `error`.  The returned list is the sequence of emitted
signals. -/
def run {Row : Type} (query : Option String) (exec : ExecOutcome)
    (page : PageOutcome Row) : List (Signal Row) :=
  let loadPage : List (Signal Row) :=
    match page with
    | .raises m => [.error ("Error: " ++ m)]
    | .returns df => [.finished df]
  match query with
  | some q =>
    if q ≠ "" then
      match exec with
      | .raises m => [.error ("Error: " ++ m)]
      | .returns false m => [.error ("Query Error:\n\n" ++ m)]
      | .returns true _ => loadPage
    else loadPage
  | none => loadPage

/-- Does the worker's run hit a failure (a reported `execute_query` failure
or a raised exception)?  Mirrors the spec sentence for `QueryWorker`. -/
def fails {Row : Type} (query : Option String) (exec : ExecOutcome)
    (page : PageOutcome Row) : Prop :=
  (∃ q, query = some q ∧ q ≠ "" ∧
     ((∃ m, exec = .raises m) ∨ (∃ m, exec = .returns false m))) ∨
  (¬ (∃ q, query = some q ∧ q ≠ "" ∧
        ((∃ m, exec = .raises m) ∨ (∃ m, exec = .returns false m))) ∧
     ∃ m, page = .raises m)

end QueryWorker

/-! Concrete fixtures used by witnesses and counterexamples. -/

/-- A row-count oracle reporting an empty result for every query. -/
def zeroRC : String → Nat := fun _ => 0

/-- A validation oracle on which no query raises. -/
def okValid : String → Option String := fun _ => none

/-- A small engine state: 5 rows, 2 rows per page, 3 pages. -/
def sampleState : QueryEngine.State :=
  { file_path := "f.parquet", page_size := 2, table_name := "data",
    file_reader_query := "FRQ", current_query := "CQ",
    total_rows := 5, total_pages := 3 }

/-- A connection on which every fetch raises. -/
def dbErr : String → QueryEngine.FetchResult Nat := fun _ => .err "boom"

/-- A connection answering every fetch with rows 12, 13. -/
def dbRows : String → QueryEngine.FetchResult Nat := fun _ => .ok [12, 13]

/-- The state `QueryEngine.__init__` builds for `f.parquet` over an empty
file, 100 rows per page. -/
def emptyEngine : QueryEngine.State :=
  { file_path := "f.parquet", page_size := 100, table_name := "data",
    file_reader_query := "SELECT * FROM read_parquet(" ++ squo ++ "f.parquet" ++ squo ++ ")",
    current_query := "SELECT * FROM read_parquet(" ++ squo ++ "f.parquet" ++ squo ++ ")",
    total_rows := 0, total_pages := 0 }

/-- The state after a successful `execute_query` on the empty file. -/
def emptyEngineAfterExec : QueryEngine.State :=
  (QueryEngine.execute_query zeroRC okValid emptyEngine "select 1").1

/-! # Theorems -/

/-- C7: for every file path whose suffix (case-insensitive) is `.parquet`,
`.csv` or `.json`, `QueryEngine` builds the corresponding lazy reader query
`SELECT * FROM read_parquet/read_csv/read_json('<path>')`, and for every
other suffix `_build_file_reader_query` — and with it `QueryEngine`
construction — fails with the `Unsupported file format` `ValueError`. -/
theorem build_file_reader_query_dispatch (p : String) :
    (QueryEngine.lowerSuffix p = ".parquet".data →
      QueryEngine.build_file_reader_query p =
        .ok ("SELECT * FROM read_parquet(" ++ squo ++ p ++ squo ++ ")")) ∧
    (QueryEngine.lowerSuffix p = ".csv".data →
      QueryEngine.build_file_reader_query p =
        .ok ("SELECT * FROM read_csv(" ++ squo ++ p ++ squo ++ ")")) ∧
    (QueryEngine.lowerSuffix p = ".json".data →
      QueryEngine.build_file_reader_query p =
        .ok ("SELECT * FROM read_json(" ++ squo ++ p ++ squo ++ ")")) ∧
    (QueryEngine.lowerSuffix p ∉ [".parquet".data, ".csv".data, ".json".data] →
      QueryEngine.build_file_reader_query p =
        .error ("Unsupported file format: " ++ String.mk (QueryEngine.lowerSuffix p)) ∧
      ∀ rc ps tn, QueryEngine.init rc p ps tn =
        .error ("Unsupported file format: " ++ String.mk (QueryEngine.lowerSuffix p))) := by
  refine ⟨fun h => ?_, fun h => ?_, fun h => ?_, fun h => ?_⟩
  · simp [QueryEngine.build_file_reader_query, h]
  · simp [QueryEngine.build_file_reader_query, h,
      show ".csv".data ≠ ".parquet".data by decide]
  · simp [QueryEngine.build_file_reader_query, h,
      show ".json".data ≠ ".parquet".data by decide,
      show ".json".data ≠ ".csv".data by decide]
  · simp only [List.mem_cons, List.mem_singleton, not_or] at h
    obtain ⟨h1, h2, h3⟩ := h
    have hb : QueryEngine.build_file_reader_query p =
        .error ("Unsupported file format: " ++ String.mk (QueryEngine.lowerSuffix p)) := by
      simp [QueryEngine.build_file_reader_query, h1, h2, h3]
    refine ⟨hb, fun rc ps tn => ?_⟩
    simp [QueryEngine.init, hb]

/-- C7 witness: a parquet file with mixed-case suffix is accepted, and a
`.gz` suffix makes construction fail. -/
theorem build_file_reader_query_dispatch_witness :
    QueryEngine.build_file_reader_query "/tmp/Data.PARQUET" =
      .ok ("SELECT * FROM read_parquet(" ++ squo ++ "/tmp/Data.PARQUET" ++ squo ++ ")") ∧
    QueryEngine.init zeroRC "/tmp/archive.tar.gz" 100 "data" =
      .error ("Unsupported file format: " ++
        String.mk (QueryEngine.lowerSuffix "/tmp/archive.tar.gz")) :=
  ⟨(build_file_reader_query_dispatch "/tmp/Data.PARQUET").1 (by decide),
   ((build_file_reader_query_dispatch "/tmp/archive.tar.gz").2.2.2 (by decide)).2
     zeroRC 100 "data"⟩

/-- C6: every run of `QueryWorker` emits exactly one signal; it is an
`error` signal exactly when a truthy query's `execute_query` reports failure
or raises, or (otherwise) the page fetch raises, and a `finished` signal
exactly otherwise. -/
theorem query_worker_one_signal (Row : Type) (query : Option String)
    (exec : QueryWorker.ExecOutcome) (page : QueryWorker.PageOutcome Row) :
    (QueryWorker.run query exec page).length = 1 ∧
    ((∃ m, QueryWorker.run query exec page = [.error m]) ↔
       QueryWorker.fails query exec page) ∧
    ((∃ df, QueryWorker.run query exec page = [.finished df]) ↔
       ¬ QueryWorker.fails query exec page) := by
  rcases query with _ | q
  · rcases page with m | df <;>
      simp [QueryWorker.run, QueryWorker.fails]
  · by_cases hq : q = ""
    · subst hq
      rcases page with m | df <;>
        simp [QueryWorker.run, QueryWorker.fails]
    · rcases exec with m | ⟨success, msg⟩
      · rcases page with pm | df <;>
          simp [QueryWorker.run, QueryWorker.fails, hq]
      · rcases success with _ | _ <;> rcases page with pm | df <;>
          simp [QueryWorker.run, QueryWorker.fails, hq]

/-- C9: `get_page` is read-only on the engine state — it returns the state
unchanged for every page number — and a fetch error yields an empty
dataframe rather than an exception. -/
theorem get_page_frame {Row : Type} (db : String → QueryEngine.FetchResult Row)
    (s : QueryEngine.State) (p : Int) :
    (QueryEngine.get_page db s p).1 = s ∧
    (∀ m, db (QueryEngine.paginated_query s p) = .err m →
       (QueryEngine.get_page db s p).2 = []) := by
  constructor
  · unfold QueryEngine.get_page
    split
    · rfl
    · split <;> rfl
  · intro m hm
    unfold QueryEngine.get_page
    split
    · rfl
    · rw [hm]

/-- C9 witness: on a connection whose every fetch raises, page 1 of the
sample state is the empty dataframe and the state is untouched. -/
theorem get_page_frame_witness :
    (QueryEngine.get_page dbErr sampleState 1).1 = sampleState ∧
    (QueryEngine.get_page dbErr sampleState 1).2 = [] :=
  ⟨(get_page_frame dbErr sampleState 1).1,
   (get_page_frame dbErr sampleState 1).2 "boom" rfl⟩

/-- C5: a page is a LIMIT/OFFSET window.  The query `get_page` sends for
page `p` is the wrapped current query with `LIMIT page_size OFFSET
(p-1)*page_size` appended; when `1 ≤ p ≤ total_pages` and the connection
answers that query with the corresponding window of the result rows, the
returned dataframe is exactly that window — at most `page_size` rows
starting at row `(p-1)*page_size` — and for `p < 1` or `p > total_pages`
the result is the empty dataframe with the state unchanged. -/
theorem get_page_window {Row : Type} (db : String → QueryEngine.FetchResult Row)
    (allRows : List Row) (s : QueryEngine.State) (p : Int) :
    (QueryEngine.paginated_query s p =
       QueryEngine.wrap_query s.current_query ++ " LIMIT " ++ toString s.page_size ++
         " OFFSET " ++ toString ((p - 1).toNat * s.page_size) ∧
     QueryEngine.wrap_query s.current_query =
       "SELECT * FROM (" ++ s.current_query ++ ")") ∧
    (1 ≤ p → p ≤ (s.total_pages : Int) →
      db (QueryEngine.paginated_query s p) =
        .ok ((allRows.drop ((p - 1).toNat * s.page_size)).take s.page_size) →
      (QueryEngine.get_page db s p).2 =
        (allRows.drop ((p - 1).toNat * s.page_size)).take s.page_size ∧
      (QueryEngine.get_page db s p).2.length ≤ s.page_size) ∧
    (p < 1 ∨ p > (s.total_pages : Int) →
      QueryEngine.get_page db s p = (s, [])) := by
  refine ⟨⟨rfl, rfl⟩, fun h1 h2 hdb => ?_, fun h => ?_⟩
  · have hrange : ¬ (p < 1 ∨ p > (s.total_pages : Int)) := by omega
    have : (QueryEngine.get_page db s p).2 =
        (allRows.drop ((p - 1).toNat * s.page_size)).take s.page_size := by
      unfold QueryEngine.get_page
      rw [if_neg hrange, hdb]
    refine ⟨this, ?_⟩
    rw [this, List.length_take]
    exact Nat.min_le_left _ _
  · unfold QueryEngine.get_page
    rw [if_pos h]

/-- C5 witness: page 2 of a 5-row result with 2 rows per page is rows 2..3,
and page 4 (out of range for 3 pages) is empty. -/
theorem get_page_window_witness :
    (QueryEngine.get_page dbRows sampleState 2).2 = [12, 13] ∧
    (QueryEngine.get_page dbRows sampleState 2).2.length ≤ sampleState.page_size ∧
    QueryEngine.get_page dbRows sampleState 4 = (sampleState, []) := by
  have h := (get_page_window dbRows [10, 11, 12, 13, 14] sampleState 2).2.1
    (by decide) (by decide) rfl
  have h4 := (get_page_window dbRows [10, 11, 12, 13, 14] sampleState 4).2.2
    (by decide)
  exact ⟨by rw [h.1]; decide, h.2, h4⟩

/-- C4 (amended): after `__init__` and `reset_query`, `total_rows` is the
row count of `current_query` and `total_pages = ⌈total_rows / page_size⌉`
(the `pagesNeeded` formula); after a *successful* `execute_query` or
`sort_by_column`, `total_rows` is again the row count of `current_query`
but `total_pages = max 1 ⌈total_rows / page_size⌉`, which differs from the
plain ceiling exactly when the result is empty.  The final conjunct shows
`pagesNeeded` is the least number of `page_size`-row pages covering the
rows. -/
theorem pagination_state_spec (rc : String → Nat) (valid : String → Option String)
    (fp q col : String) (ps : Nat) (tn : String) (asc : Bool)
    (s e : QueryEngine.State) (hps : 1 ≤ s.page_size) :
    (QueryEngine.init rc fp ps tn = .ok e →
       e.page_size = ps ∧ e.total_rows = rc e.current_query ∧
       e.total_pages = QueryEngine.pagesNeeded e.total_rows e.page_size) ∧
    ((QueryEngine.execute_query rc valid s q).2.1 = true →
       (QueryEngine.execute_query rc valid s q).1.total_rows =
         rc (QueryEngine.execute_query rc valid s q).1.current_query ∧
       (QueryEngine.execute_query rc valid s q).1.total_pages =
         max 1 (QueryEngine.pagesNeeded
           (QueryEngine.execute_query rc valid s q).1.total_rows s.page_size)) ∧
    ((QueryEngine.sort_by_column rc valid s col asc).2.1 = true →
       (QueryEngine.sort_by_column rc valid s col asc).1.total_rows =
         rc (QueryEngine.sort_by_column rc valid s col asc).1.current_query ∧
       (QueryEngine.sort_by_column rc valid s col asc).1.total_pages =
         max 1 (QueryEngine.pagesNeeded
           (QueryEngine.sort_by_column rc valid s col asc).1.total_rows s.page_size)) ∧
    ((QueryEngine.reset_query rc s).total_rows =
       rc (QueryEngine.reset_query rc s).current_query ∧
     (QueryEngine.reset_query rc s).total_pages =
       QueryEngine.pagesNeeded (QueryEngine.reset_query rc s).total_rows s.page_size) ∧
    (∀ rows : Nat,
       rows ≤ QueryEngine.pagesNeeded rows s.page_size * s.page_size ∧
       ∀ k : Nat, rows ≤ k * s.page_size → QueryEngine.pagesNeeded rows s.page_size ≤ k) := by
  refine ⟨fun hinit => ?_, fun hexec => ?_, fun hsort => ?_, ⟨rfl, rfl⟩, fun rows => ⟨?_, fun k hk => ?_⟩⟩
  · unfold QueryEngine.init at hinit
    cases hb : QueryEngine.build_file_reader_query fp with
    | error m => rw [hb] at hinit; exact absurd hinit (by simp)
    | ok frq =>
      rw [hb] at hinit
      injection hinit with h
      subst h
      exact ⟨rfl, rfl, rfl⟩
  · unfold QueryEngine.execute_query at hexec ⊢
    cases hv : valid (QueryEngine.wrap_query
        (QueryEngine.substitute_table_name s.table_name s.file_reader_query q) ++ " LIMIT 0") with
    | some msg => simp only [hv] at hexec; exact Bool.noConfusion hexec
    | none => simp [hv]
  · unfold QueryEngine.sort_by_column at hsort ⊢
    cases hv : valid (QueryEngine.wrap_query
        ("SELECT * FROM (" ++ s.current_query ++ ") ORDER BY " ++ col ++ " " ++
          (if asc then "ASC" else "DESC")) ++ " LIMIT 0") with
    | some msg => simp only [hv] at hsort; exact Bool.noConfusion hsort
    | none => simp [hv]
  · unfold QueryEngine.pagesNeeded
    have hmod := Nat.div_add_mod (rows + s.page_size - 1) s.page_size
    have hlt : (rows + s.page_size - 1) % s.page_size < s.page_size :=
      Nat.mod_lt _ (by omega)
    rw [Nat.mul_comm]
    set d := (rows + s.page_size - 1) / s.page_size with hd
    set r := (rows + s.page_size - 1) % s.page_size with hr
    set m := s.page_size * d with hm
    omega
  · unfold QueryEngine.pagesNeeded
    by_contra hcon
    push_neg at hcon
    have h1 : k + 1 ≤ (rows + s.page_size - 1) / s.page_size := hcon
    have h2 : (k + 1) * s.page_size ≤ rows + s.page_size - 1 :=
      (Nat.le_div_iff_mul_le (by omega)).1 h1
    rw [Nat.add_mul] at h2
    set a := k * s.page_size with ha
    omega

/-- C4 counterexample to the claim as stated: on an empty result, a
successful `execute_query` sets `total_pages` to `1`, not to the ceiling
`pagesNeeded total_rows page_size = 0`. -/
theorem pagination_claim_counterexample :
    QueryEngine.init zeroRC "f.parquet" 100 "data" = .ok emptyEngine ∧
    (QueryEngine.execute_query zeroRC okValid emptyEngine "select 1").2.1 = true ∧
    emptyEngineAfterExec =
      (QueryEngine.execute_query zeroRC okValid emptyEngine "select 1").1 ∧
    emptyEngineAfterExec.total_pages = 1 ∧
    QueryEngine.pagesNeeded emptyEngineAfterExec.total_rows
      emptyEngineAfterExec.page_size = 0 ∧
    emptyEngineAfterExec.total_pages ≠
      QueryEngine.pagesNeeded emptyEngineAfterExec.total_rows
        emptyEngineAfterExec.page_size := by
  refine ⟨rfl, by decide, rfl, by decide, by decide, by decide⟩

/-- C4 witness: the amended theorem applied to the empty-file engine:
`reset_query` yields the plain ceiling 0, while the state after the
successful `execute_query` carries `max 1 0 = 1` pages. -/
theorem pagination_state_spec_witness :
    (QueryEngine.reset_query zeroRC emptyEngine).total_pages =
      QueryEngine.pagesNeeded (QueryEngine.reset_query zeroRC emptyEngine).total_rows
        emptyEngine.page_size ∧
    (QueryEngine.execute_query zeroRC okValid emptyEngine "select 1").1.total_pages =
      max 1 (QueryEngine.pagesNeeded
        (QueryEngine.execute_query zeroRC okValid emptyEngine "select 1").1.total_rows
        emptyEngine.page_size) :=
  ⟨(pagination_state_spec zeroRC okValid "f.parquet" "select 1" "c" 100 "data" true
      emptyEngine emptyEngine (by decide)).2.2.2.1.2,
   ((pagination_state_spec zeroRC okValid "f.parquet" "select 1" "c" 100 "data" true
      emptyEngine emptyEngine (by decide)).2.1 (by decide)).2⟩

/-- A head match of `limit\s+([0-9]+)` starts with the literal `limit` and
returns a group consisting of digits. -/
theorem matchLimitAt_some {l ds : List Char}
    (h : Revisor.matchLimitAt l = some ds) :
    "limit".data.isPrefixOf l = true ∧ ds.all Char.isDigit = true := by
  unfold Revisor.matchLimitAt at h
  split at h
  · next rest =>
    refine ⟨by simp [List.isPrefixOf], ?_⟩
    simp only at h
    split at h
    · exact absurd h (by simp)
    · split at h
      · exact absurd h (by simp)
      · injection h with h
        subst h
        simp only [List.all_eq_true]
        intro x hx
        exact List.mem_takeWhile_imp hx
  · exact absurd h (by simp)

/-- A match of `limit\s+([0-9]+)` implies the substring `limit` is present
(so `_rule_limit_range`'s guard `'limit' in query` is active). -/
theorem findLimit_containsSub {l : List Char} {ds : List Char}
    (h : Revisor.findLimit l = some ds) :
    Revisor.containsSub "limit".data l = true := by
  induction l with
  | nil => simp [Revisor.findLimit] at h
  | cons c cs ih =>
    rw [Revisor.findLimit] at h
    cases hm : Revisor.matchLimitAt (c :: cs) with
    | some ds2 =>
      rw [Revisor.containsSub, (matchLimitAt_some hm).1, Bool.true_or]
    | none =>
      rw [hm] at h
      rw [Revisor.containsSub, ih h, Bool.or_true]

/-- The digit group returned by `findLimit` consists of digits (so the
`isdigit` guard in `_rule_limit_range` never fires). -/
theorem findLimit_all_digits {l ds : List Char}
    (h : Revisor.findLimit l = some ds) :
    ds.all Char.isDigit = true := by
  induction l with
  | nil => simp [Revisor.findLimit] at h
  | cons c cs ih =>
    rw [Revisor.findLimit] at h
    cases hm : Revisor.matchLimitAt (c :: cs) with
    | some ds2 =>
      rw [hm] at h
      injection h with h
      subst h
      exact (matchLimitAt_some hm).2
    | none =>
      rw [hm] at h
      exact ih h

/-- C2 (amended): the limit rule examines the **first** `limit <digits>`
occurrence in the normalized query.  If its numeric value `N` exceeds
`max_rows`, `Revisor.run` returns the `Bad Limit Range` exception whose
`result` is the normalized query with every occurrence of `limit <N>`
(with `N` printed in canonical decimal) replaced by `LIMIT <max_rows>`;
if `N ≤ max_rows` (`N ≥ 0` always holds), the limit rule passes. -/
theorem limit_range_clamps (maxRows : Nat) (q : String) (ds : List Char)
    (hfind : Revisor.findLimit (Revisor.clear_q q.data) = some ds) :
    (Revisor.digitsToNat ds > maxRows →
       Revisor.run maxRows q =
         .bad (Revisor.badLimitExc maxRows (Revisor.clear_q q.data)
                 (Revisor.digitsToNat ds))) ∧
    (Revisor.digitsToNat ds ≤ maxRows →
       Revisor.rule_limit_range maxRows (Revisor.clear_q q.data) = none) := by
  have hsub := findLimit_containsSub hfind
  have hdig := findLimit_all_digits hfind
  constructor
  · intro hgt
    have hnle : ¬ (Revisor.digitsToNat ds ≤ maxRows) := by omega
    have hrule : Revisor.rule_limit_range maxRows (Revisor.clear_q q.data) =
        some (Revisor.badLimitExc maxRows (Revisor.clear_q q.data)
                (Revisor.digitsToNat ds)) := by
      simp [Revisor.rule_limit_range, hsub, hfind, hdig, hnle]
    simp [Revisor.run, hrule]
  · intro hle
    simp [Revisor.rule_limit_range, hsub, hfind, hdig, hle]

/-- C2 witness: with `max_rows = 100000`, the query
`SELECT * FROM data LIMIT 200000` is clamped: `run` returns the
`Bad Limit Range` exception carrying `select * from data LIMIT 100000`. -/
theorem limit_range_clamps_witness :
    Revisor.run 100000 "SELECT * FROM data LIMIT 200000" =
      .bad (Revisor.badLimitExc 100000
              (Revisor.clear_q ("SELECT * FROM data LIMIT 200000").data)
              (Revisor.digitsToNat "200000".data)) ∧
    Revisor.rule_limit_range 100000
      (Revisor.clear_q ("select * from data limit 10000").data) = none :=
  ⟨(limit_range_clamps 100000 "SELECT * FROM data LIMIT 200000" "200000".data
      (by decide)).1 (by decide),
   (limit_range_clamps 100000 "select * from data limit 10000" "10000".data
      (by decide)).2 (by decide)⟩

/-- C2 counterexample to the claim as stated: with `max_rows = 100000`, the
normalized query `select * from (select * from t limit 5) limit 200000`
contains `limit` followed by the out-of-range value `200000`, yet
`Revisor.run` returns `True` — only the first `limit 5` is examined. -/
theorem limit_range_claim_counterexample :
    Revisor.containsSub ("limit 200000").data
      (Revisor.clear_q ("select * from (select * from t limit 5) limit 200000").data)
        = true ∧
    100000 < 200000 ∧
    Revisor.run 100000 "select * from (select * from t limit 5) limit 200000" =
      Revisor.RunResult.ok := by
  exact ⟨by decide, by decide, by decide⟩

/-- C3: a normalized query containing one of the five join keywords as a
whitespace-delimited token is never accepted: `Revisor.run` returns a
`BadQueryException` instead of `True`. -/
theorem no_joins_rejected (maxRows : Nat) (q : String)
    (h : ∃ w, w ∈ Revisor.joinWords ∧ w ∈ Revisor.splitTokens (Revisor.clear_q q.data)) :
    Revisor.run maxRows q ≠ Revisor.RunResult.ok := by
  obtain ⟨w, hw, hmem⟩ := h
  have hjoin : Revisor.hasJoinToken (Revisor.clear_q q.data) = true := by
    unfold Revisor.hasJoinToken
    rw [List.any_eq_true]
    exact ⟨w, hmem, List.elem_eq_true_of_mem hw⟩
  unfold Revisor.run
  cases hlim : Revisor.rule_limit_range maxRows (Revisor.clear_q q.data) with
  | some e => simp [hlim]
  | none =>
    have hnj : Revisor.rule_no_joins (Revisor.clear_q q.data) = some Revisor.joinsExc := by
      unfold Revisor.rule_no_joins
      rw [if_pos hjoin]
    simp [hlim, hnj]

/-- C3 witness: `select * from a JOIN b` is rejected. -/
theorem no_joins_rejected_witness :
    Revisor.run 100000 "select * from a JOIN b" ≠ Revisor.RunResult.ok :=
  no_joins_rejected 100000 "select * from a JOIN b"
    ⟨"join".data, by decide, by decide⟩

/-- The core definition of `Char.toLower`, re-stated over `toNat`. -/
theorem toLower_def (c : Char) :
    c.toLower = if c.toNat ≥ 65 ∧ c.toNat ≤ 90 then Char.ofNat (c.toNat + 32) else c := rfl

/-- Lowercasing an ASCII uppercase codepoint lands on the expected codepoint. -/
theorem toNat_ofNat_add32 {n : Nat} (h1 : 65 ≤ n) (h2 : n ≤ 90) :
    (Char.ofNat (n + 32)).toNat = n + 32 := by
  interval_cases n <;> decide

/-- No character with codepoint ≥ 65 is Python whitespace. -/
theorem isPySpace_false_of_ge65 {c : Char} (h : 65 ≤ c.toNat) : isPySpace c = false := by
  unfold isPySpace
  simp only [Bool.or_eq_false_iff, beq_eq_false_iff_ne]
  refine ⟨⟨⟨⟨⟨?_, ?_⟩, ?_⟩, ?_⟩, ?_⟩, ?_⟩ <;>
    · rintro rfl
      exact absurd h (by decide)

/-- `str.lower` (ASCII model) is idempotent on characters. -/
theorem toLower_toLower (c : Char) : c.toLower.toLower = c.toLower := by
  rw [toLower_def c]
  split
  · next h =>
    have hA := toNat_ofNat_add32 h.1 h.2
    rw [toLower_def, hA, if_neg (by omega)]
  · next h => rw [toLower_def, if_neg h]

/-- Lowercasing does not change whitespace-ness. -/
theorem isPySpace_toLower (c : Char) : isPySpace c.toLower = isPySpace c := by
  rw [toLower_def]
  split
  · next h =>
    have hA := toNat_ofNat_add32 h.1 h.2
    have hl : isPySpace (Char.ofNat (c.toNat + 32)) = false :=
      isPySpace_false_of_ge65 (by rw [hA]; omega)
    have hr : isPySpace c = false := isPySpace_false_of_ge65 (by omega)
    rw [hl, hr]
  · rfl

/-- Lowercasing does not change space-ness. -/
theorem beq_space_toLower (c : Char) : (c.toLower == ' ') = (c == ' ') := by
  rw [toLower_def]
  split
  · next h =>
    have hA := toNat_ofNat_add32 h.1 h.2
    have h32 : (' ' : Char).toNat = 32 := rfl
    have hl : (Char.ofNat (c.toNat + 32) == ' ') = false := by
      rw [beq_eq_false_iff_ne]
      intro heq
      have hn := congrArg Char.toNat heq
      rw [hA, h32] at hn
      omega
    have hr : (c == ' ') = false := by
      rw [beq_eq_false_iff_ne]
      intro heq
      have hn := congrArg Char.toNat heq
      rw [h32] at hn
      omega
    rw [hl, hr]
  · rfl

/-- After lowering, no ASCII uppercase letter remains. -/
theorem isAsciiUpper_toLower (c : Char) : isAsciiUpper c.toLower = false := by
  rw [toLower_def]
  split
  · next h =>
    have hA := toNat_ofNat_add32 h.1 h.2
    simp only [isAsciiUpper, hA, Bool.and_eq_false_iff, decide_eq_false_iff_not]
    omega
  · next h =>
    simp only [isAsciiUpper, Bool.and_eq_false_iff, decide_eq_false_iff_not]
    omega

/-- A scan resumed in whitespace-just-seen state never starts with whitespace. -/
theorem collapseAux_head_not_space (cs : List Char) :
    ∀ d, (Revisor.collapseAux true cs).head? = some d → isPySpace d = false := by
  induction cs with
  | nil =>
    intro d h
    simp [Revisor.collapseAux] at h
  | cons c cs ih =>
    intro d h
    rw [Revisor.collapseAux] at h
    split at h
    · exact ih d (by simpa using h)
    · next hc =>
      simp only [List.head?_cons, Option.some.injEq] at h
      subst h
      simpa using hc

/-- A non-whitespace head goes through the collapse scan unchanged. -/
theorem collapseAux_cons_nonspace (b : Bool) {d : Char} (rest : List Char)
    (hd : isPySpace d = false) :
    Revisor.collapseAux b (d :: rest) = d :: Revisor.collapseAux false rest := by
  rw [Revisor.collapseAux, if_neg (by simp [hd])]

/-- `wsCollapsed` is preserved by consing a non-whitespace character. -/
theorem wsCollapsed_cons_nonspace {c : Char} {l : List Char}
    (hc : isPySpace c = false) (hl : Revisor.wsCollapsed l = true) :
    Revisor.wsCollapsed (c :: l) = true := by
  cases l with
  | nil => simp [Revisor.wsCollapsed, hc]
  | cons d rest => simp [Revisor.wsCollapsed, hc, hl]

/-- `wsCollapsed` is preserved by consing a space onto a list with a
non-whitespace head. -/
theorem wsCollapsed_cons_space {l : List Char}
    (hl : Revisor.wsCollapsed l = true)
    (hhead : ∀ d, l.head? = some d → isPySpace d = false) :
    Revisor.wsCollapsed (' ' :: l) = true := by
  cases l with
  | nil => decide
  | cons d rest =>
    have hd := hhead d rfl
    simp [Revisor.wsCollapsed, hd, hl, show isPySpace ' ' = true by decide]

/-- The output of the collapse scan is in collapsed form. -/
theorem wsCollapsed_collapseAux (l : List Char) :
    ∀ b, Revisor.wsCollapsed (Revisor.collapseAux b l) = true := by
  induction l with
  | nil => intro b; rfl
  | cons c cs ih =>
    intro b
    rw [Revisor.collapseAux]
    split
    · next hc =>
      split
      · exact ih true
      · exact wsCollapsed_cons_space (ih true) (collapseAux_head_not_space cs)
    · next hc =>
      refine wsCollapsed_cons_nonspace ?_ (ih false)
      revert hc
      cases isPySpace c <;> simp

/-- `wsCollapsed` passes to the tail. -/
theorem wsCollapsed_tail {c : Char} {cs : List Char}
    (h : Revisor.wsCollapsed (c :: cs) = true) : Revisor.wsCollapsed cs = true := by
  cases cs with
  | nil => rfl
  | cons d rest =>
    rw [Revisor.wsCollapsed, Bool.and_eq_true] at h
    exact h.2

/-- In a collapsed list, a whitespace head is a plain space followed by a
non-whitespace character (if any). -/
theorem wsCollapsed_space_head {c : Char} {cs : List Char}
    (h : Revisor.wsCollapsed (c :: cs) = true) (hc : isPySpace c = true) :
    c = ' ' ∧ ∀ d, cs.head? = some d → isPySpace d = false := by
  cases cs with
  | nil =>
    rw [Revisor.wsCollapsed, hc] at h
    simp only [Bool.not_true, Bool.false_or] at h
    exact ⟨eq_of_beq h, fun d hd => by simp at hd⟩
  | cons d rest =>
    rw [Revisor.wsCollapsed, Bool.and_eq_true] at h
    have h1 := h.1
    rw [hc] at h1
    simp only [Bool.not_true, Bool.false_or, Bool.and_eq_true] at h1
    refine ⟨eq_of_beq h1.1, fun e he => ?_⟩
    simp only [List.head?_cons, Option.some.injEq] at he
    subst he
    simpa using h1.2

/-- The collapse scan is the identity on collapsed input. -/
theorem collapseAux_id {l : List Char} (h : Revisor.wsCollapsed l = true) :
    Revisor.collapseAux false l = l := by
  induction l with
  | nil => rfl
  | cons c cs ih =>
    by_cases hc : isPySpace c = true
    · obtain ⟨hce, hhead⟩ := wsCollapsed_space_head h hc
      subst hce
      have hstep : Revisor.collapseAux false (' ' :: cs) =
          ' ' :: Revisor.collapseAux true cs := by
        rw [Revisor.collapseAux, if_pos (by simp [isPySpace])]
        simp
      rw [hstep]
      congr 1
      cases cs with
      | nil => rfl
      | cons d rest =>
        have hd : isPySpace d = false := hhead d rfl
        rw [collapseAux_cons_nonspace true rest hd,
            ← collapseAux_cons_nonspace false rest hd]
        exact ih (wsCollapsed_tail h)
    · have hc' : isPySpace c = false := by
        revert hc; cases isPySpace c <;> simp
      rw [collapseAux_cons_nonspace false cs hc']
      congr 1
      exact ih (wsCollapsed_tail h)

/-- `wsCollapsed` is preserved by `dropWhile`. -/
theorem wsCollapsed_dropWhile {l : List Char} (h : Revisor.wsCollapsed l = true) :
    Revisor.wsCollapsed (l.dropWhile isPySpace) = true := by
  induction l with
  | nil => rfl
  | cons c cs ih =>
    rw [List.dropWhile_cons]
    split
    · exact ih (wsCollapsed_tail h)
    · exact h

/-- `wsCollapsed` restricts to a prefix. -/
theorem wsCollapsed_append_left {a b : List Char}
    (h : Revisor.wsCollapsed (a ++ b) = true) : Revisor.wsCollapsed a = true := by
  induction a with
  | nil => rfl
  | cons c as ih =>
    cases as with
    | nil =>
      cases b with
      | nil => exact h
      | cons d rest =>
        rw [List.cons_append, List.nil_append] at h
        rw [Revisor.wsCollapsed, Bool.and_eq_true] at h
        have h1 := h.1
        rw [Revisor.wsCollapsed]
        cases hsp : isPySpace c with
        | false => simp
        | true =>
          rw [hsp] at h1
          simp only [Bool.not_true, Bool.false_or, Bool.and_eq_true] at h1
          simp [h1.1]
    | cons c2 as' =>
      have htail : Revisor.wsCollapsed (c2 :: as') = true :=
        ih (wsCollapsed_tail (by simpa using h))
      rw [List.cons_append, List.cons_append] at h
      rw [Revisor.wsCollapsed, Bool.and_eq_true] at h
      rw [Revisor.wsCollapsed, Bool.and_eq_true]
      exact ⟨h.1, htail⟩

/-- The right-strip of a list is one of its prefixes. -/
theorem stripRight_prefix (y : List Char) :
    ∃ t, y = ((y.reverse.dropWhile isPySpace).reverse) ++ t := by
  obtain ⟨s, hs⟩ := List.dropWhile_suffix (l := y.reverse) isPySpace
  refine ⟨s.reverse, ?_⟩
  have hrev := congrArg List.reverse hs
  rw [List.reverse_append, List.reverse_reverse] at hrev
  exact hrev.symm

/-- The head surviving `dropWhile isPySpace` is not whitespace. -/
theorem dropWhile_head_not (l : List Char) :
    ∀ d, (l.dropWhile isPySpace).head? = some d → isPySpace d = false := by
  induction l with
  | nil => intro d h; simp at h
  | cons c cs ih =>
    intro d h
    rw [List.dropWhile_cons] at h
    split at h
    · exact ih d h
    · next hc =>
      simp only [List.head?_cons, Option.some.injEq] at h
      subst h
      simpa using hc

/-- The head of a stripped list is not whitespace. -/
theorem stripChars_head {l : List Char} {d : Char}
    (h : (Revisor.stripChars l).head? = some d) : isPySpace d = false := by
  unfold Revisor.stripChars at h
  obtain ⟨t, ht⟩ := stripRight_prefix (l.dropWhile isPySpace)
  have hA : (l.dropWhile isPySpace).head? = some d := by
    rw [ht]
    cases hA0 : ((l.dropWhile isPySpace).reverse.dropWhile isPySpace).reverse with
    | nil => rw [hA0] at h; simp at h
    | cons x xs =>
      rw [hA0] at h
      simp only [List.head?_cons, Option.some.injEq] at h
      subst h
      rw [List.cons_append]
      rfl
  exact dropWhile_head_not l d hA

/-- The last character of a stripped list is not whitespace. -/
theorem stripChars_last {l : List Char} {d : Char}
    (h : (Revisor.stripChars l).getLast? = some d) : isPySpace d = false := by
  unfold Revisor.stripChars at h
  rw [List.getLast?_reverse] at h
  exact dropWhile_head_not _ d h

/-- Build `strippedEnds` from the two end conditions. -/
theorem strippedEnds_of (l : List Char)
    (h1 : ∀ d, l.head? = some d → isPySpace d = false)
    (h2 : ∀ d, l.getLast? = some d → isPySpace d = false) :
    Revisor.strippedEnds l = true := by
  unfold Revisor.strippedEnds
  rw [Bool.and_eq_true]
  constructor
  · cases hh : l.head? with
    | none => rfl
    | some d => simp [h1 d hh]
  · cases hh : l.getLast? with
    | none => rfl
    | some d => simp [h2 d hh]

/-- Destruct `strippedEnds`: the head condition. -/
theorem strippedEnds_head {l : List Char} (h : Revisor.strippedEnds l = true) :
    ∀ d, l.head? = some d → isPySpace d = false := by
  intro d hd
  unfold Revisor.strippedEnds at h
  rw [Bool.and_eq_true, hd] at h
  simpa using h.1

/-- Destruct `strippedEnds`: the last-character condition. -/
theorem strippedEnds_last {l : List Char} (h : Revisor.strippedEnds l = true) :
    ∀ d, l.getLast? = some d → isPySpace d = false := by
  intro d hd
  unfold Revisor.strippedEnds at h
  rw [Bool.and_eq_true, hd] at h
  simpa using h.2

/-- `stripChars` always produces a stripped list. -/
theorem strippedEnds_stripChars (l : List Char) :
    Revisor.strippedEnds (Revisor.stripChars l) = true :=
  strippedEnds_of _ (fun _ hd => stripChars_head hd) (fun _ hd => stripChars_last hd)

/-- `dropWhile` does nothing when the head already fails the predicate. -/
theorem dropWhile_eq_self_of_head (l : List Char)
    (h : ∀ d, l.head? = some d → isPySpace d = false) :
    l.dropWhile isPySpace = l := by
  cases l with
  | nil => rfl
  | cons c cs =>
    rw [List.dropWhile_cons, if_neg]
    rw [h c rfl]
    simp

/-- `stripChars` is the identity on stripped lists. -/
theorem stripChars_id {l : List Char} (h : Revisor.strippedEnds l = true) :
    Revisor.stripChars l = l := by
  unfold Revisor.stripChars
  rw [dropWhile_eq_self_of_head l (strippedEnds_head h)]
  rw [dropWhile_eq_self_of_head l.reverse ?hrev, List.reverse_reverse]
  case hrev =>
    intro d hd
    rw [List.head?_reverse] at hd
    exact strippedEnds_last h d hd

/-- `wsCollapsed` is preserved by `stripChars`. -/
theorem wsCollapsed_stripChars {l : List Char} (h : Revisor.wsCollapsed l = true) :
    Revisor.wsCollapsed (Revisor.stripChars l) = true := by
  have h1 : Revisor.wsCollapsed (l.dropWhile isPySpace) = true := wsCollapsed_dropWhile h
  obtain ⟨t, ht⟩ := stripRight_prefix (l.dropWhile isPySpace)
  rw [ht] at h1
  exact wsCollapsed_append_left h1

/-- `wsCollapsed` is preserved by lowercasing. -/
theorem wsCollapsed_map {l : List Char} (h : Revisor.wsCollapsed l = true) :
    Revisor.wsCollapsed (l.map Char.toLower) = true := by
  induction l with
  | nil => rfl
  | cons c cs ih =>
    cases cs with
    | nil =>
      rw [List.map_cons, List.map_nil]
      rw [Revisor.wsCollapsed] at h ⊢
      rw [isPySpace_toLower, beq_space_toLower]
      exact h
    | cons d rest =>
      rw [List.map_cons, List.map_cons]
      rw [Revisor.wsCollapsed, Bool.and_eq_true] at h
      have htail : Revisor.wsCollapsed (List.map Char.toLower (d :: rest)) = true :=
        ih h.2
      rw [List.map_cons] at htail
      rw [Revisor.wsCollapsed, Bool.and_eq_true]
      refine ⟨?_, htail⟩
      rw [isPySpace_toLower, beq_space_toLower, isPySpace_toLower]
      exact h.1

/-- `strippedEnds` is preserved by lowercasing. -/
theorem strippedEnds_map {l : List Char} (h : Revisor.strippedEnds l = true) :
    Revisor.strippedEnds (l.map Char.toLower) = true := by
  refine strippedEnds_of _ (fun d hd => ?_) (fun d hd => ?_)
  · rw [List.head?_map] at hd
    cases hh : l.head? with
    | none => rw [hh] at hd; simp at hd
    | some c =>
      rw [hh] at hd
      simp at hd
      subst hd
      rw [isPySpace_toLower]
      exact strippedEnds_head h c hh
  · rw [List.getLast?_map] at hd
    cases hh : l.getLast? with
    | none => rw [hh] at hd; simp at hd
    | some c =>
      rw [hh] at hd
      simp at hd
      subst hd
      rw [isPySpace_toLower]
      exact strippedEnds_last h c hh

/-- Lowercasing leaves no uppercase letters. -/
theorem noUppercase_map (l : List Char) :
    Revisor.noUppercase (l.map Char.toLower) = true := by
  simp only [Revisor.noUppercase, List.all_eq_true]
  intro x hx
  rw [List.mem_map] at hx
  obtain ⟨c, _, rfl⟩ := hx
  rw [isAsciiUpper_toLower]
  rfl

/-- Lowercasing a list twice is the same as lowercasing it once. -/
theorem map_toLower_idem (l : List Char) :
    (l.map Char.toLower).map Char.toLower = l.map Char.toLower := by
  rw [List.map_map]
  have hf : Char.toLower ∘ Char.toLower = Char.toLower := funext toLower_toLower
  rw [hf]

/-- C10: `Revisor.clear_q` produces a lowercased string whose whitespace is
collapsed to single spaces with no leading or trailing whitespace, and it is
idempotent: applying it to its own output returns that output unchanged. -/
theorem clear_q_idempotent (q : List Char) :
    Revisor.noUppercase (Revisor.clear_q q) = true ∧
    Revisor.wsCollapsed (Revisor.clear_q q) = true ∧
    Revisor.strippedEnds (Revisor.clear_q q) = true ∧
    Revisor.clear_q (Revisor.clear_q q) = Revisor.clear_q q := by
  have hw : Revisor.wsCollapsed (Revisor.collapseWs q) = true :=
    wsCollapsed_collapseAux q false
  have hw2 : Revisor.wsCollapsed (Revisor.stripChars (Revisor.collapseWs q)) = true :=
    wsCollapsed_stripChars hw
  have hwr : Revisor.wsCollapsed (Revisor.clear_q q) = true := by
    unfold Revisor.clear_q
    exact wsCollapsed_map hw2
  have hs2 : Revisor.strippedEnds (Revisor.stripChars (Revisor.collapseWs q)) = true :=
    strippedEnds_stripChars _
  have hsr : Revisor.strippedEnds (Revisor.clear_q q) = true := by
    unfold Revisor.clear_q
    exact strippedEnds_map hs2
  have hnu : Revisor.noUppercase (Revisor.clear_q q) = true := by
    unfold Revisor.clear_q
    exact noUppercase_map _
  refine ⟨hnu, hwr, hsr, ?_⟩
  have hcoll : Revisor.collapseWs (Revisor.clear_q q) = Revisor.clear_q q := by
    unfold Revisor.collapseWs
    exact collapseAux_id hwr
  conv_lhs => rw [Revisor.clear_q]
  rw [hcoll, stripChars_id hsr]
  unfold Revisor.clear_q
  exact map_toLower_idem _

/-- Any fuel at least the input length gives the canonical scan result. -/
theorem substFuel_fuel {name repl : List Char} :
    ∀ (f : Nat) (pw : Bool) (l : List Char), l.length ≤ f →
      QueryEngine.substFuel name repl f pw l = QueryEngine.substFrom name repl pw l := by
  intro f
  induction f using Nat.strong_induction_on with
  | _ f ih =>
    intro pw l hl
    cases l with
    | nil => cases f <;> rfl
    | cons c cs =>
      cases f with
      | zero => simp at hl
      | succ g =>
        rw [QueryEngine.substFrom, List.length_cons]
        rw [QueryEngine.substFuel, QueryEngine.substFuel]
        simp only [List.length_cons, Nat.add_le_add_iff_right] at hl
        split
        · have hd : (cs.drop (name.length - 1)).length ≤ cs.length := by
            rw [List.length_drop]
            omega
          rw [ih g (by omega) true _ (Nat.le_trans hd hl),
              ih cs.length (by omega) true _ hd]
        · rw [ih g (by omega) (isWordChar c) cs hl]
          rfl

/-- When `\b<name>\b` matches nowhere, the substitution scan is the
identity. -/
theorem substFrom_id {name repl : List Char} :
    ∀ (l : List Char) (pw : Bool), QueryEngine.hasMatch name pw l = false →
      QueryEngine.substFrom name repl pw l = l := by
  intro l
  induction l with
  | nil => intro pw _; rfl
  | cons c cs ih =>
    intro pw h
    rw [QueryEngine.hasMatch, Bool.or_eq_false_iff] at h
    rw [QueryEngine.substFrom, List.length_cons, QueryEngine.substFuel,
        if_neg (by simp [h.1])]
    have : QueryEngine.substFuel name repl cs.length (isWordChar c) cs =
        QueryEngine.substFrom name repl (isWordChar c) cs := rfl
    rw [this, ih (isWordChar c) h.2]

/-- Case-insensitively equal lists have equal length. -/
theorem ciMatch_length :
    ∀ {name m : List Char}, QueryEngine.ciMatch name m = true → name.length = m.length := by
  intro name
  induction name with
  | nil =>
    intro m h
    cases m with
    | nil => rfl
    | cons c ms => simp [QueryEngine.ciMatch] at h
  | cons a as ih =>
    intro m h
    cases m with
    | nil => simp [QueryEngine.ciMatch] at h
    | cons c ms =>
      rw [QueryEngine.ciMatch, Bool.and_eq_true] at h
      rw [List.length_cons, List.length_cons, ih h.2]

/-- The substitution scan replaces the first whole-word occurrence: if no
position inside `a` matches, and `\b<name>\b` matches right after `a`
against the case-insensitive copy `m`, the scan copies `a`, emits the
replacement, and continues after the match. -/
theorem substFrom_append {name repl : List Char} (hne : name ≠ [])
    (m b : List Char) (hci : QueryEngine.ciMatch name m = true) :
    ∀ (a : List Char) (pw : Bool),
      QueryEngine.scanNoMatch name pw a (m ++ b) = true →
      QueryEngine.matchCond name (QueryEngine.endWord pw a) (m ++ b) = true →
      QueryEngine.substFrom name repl pw (a ++ (m ++ b)) =
        a ++ (repl ++ QueryEngine.substFrom name repl true b) := by
  intro a
  induction a with
  | nil =>
    intro pw _ hmc
    rw [QueryEngine.endWord] at hmc
    cases m with
    | nil => exact absurd hci (by cases name with
        | nil => exact absurd rfl hne
        | cons x xs => simp [QueryEngine.ciMatch])
    | cons c ms =>
      have hlen : name.length = ms.length + 1 := by
        rw [ciMatch_length hci, List.length_cons]
      simp only [List.nil_append, List.cons_append] at hmc ⊢
      rw [QueryEngine.substFrom, List.length_cons, QueryEngine.substFuel, if_pos hmc]
      have hdrop : (ms ++ b).drop (name.length - 1) = b := by
        rw [hlen]
        simp only [Nat.add_sub_cancel]
        exact List.drop_left ms b
      rw [hdrop]
      rw [substFuel_fuel _ true b (by rw [List.length_append]; omega)]
  | cons c as ih =>
    intro pw hscan hmc
    rw [QueryEngine.scanNoMatch, Bool.and_eq_true] at hscan
    have hm1 : QueryEngine.matchCond name pw (c :: (as ++ (m ++ b))) = false := by
      have := hscan.1
      revert this
      cases QueryEngine.matchCond name pw (c :: (as ++ (m ++ b))) <;> simp
    rw [QueryEngine.endWord] at hmc
    rw [List.cons_append, QueryEngine.substFrom, List.length_cons,
        QueryEngine.substFuel, if_neg (by simp [hm1])]
    have hfold : QueryEngine.substFuel name repl (as ++ (m ++ b)).length
        (isWordChar c) (as ++ (m ++ b)) =
        QueryEngine.substFrom name repl (isWordChar c) (as ++ (m ++ b)) := rfl
    rw [hfold, ih (isWordChar c) hscan.2 hmc, List.cons_append]

/-- C1: table-name substitution is case-insensitive and whole-word.  For a
non-empty table name of word characters (the shape `\b` makes precise):
(1) wherever the query splits as `a ++ m ++ b` with `m` a case-insensitive
copy of the name, no whole-word match inside `a`, and word boundaries on
both sides of `m` (`endWord` gives the word-character status just before
`m`, and `matchCond` checks both boundaries), the substitution copies `a`,
replaces `m` by the parenthesized file-reader sub-query, and continues
scanning in `b`; (2) a query with no whole-word occurrence — e.g. one where
the name only occurs inside longer identifiers — is returned unchanged. -/
theorem substitute_table_name_spec (tn frq q : String)
    (hne : tn.data ≠ []) (hword : ∀ c ∈ tn.data, isWordChar c = true) :
    (∀ a m b, q.data = a ++ (m ++ b) →
       QueryEngine.ciMatch tn.data m = true →
       QueryEngine.scanNoMatch tn.data false a (m ++ b) = true →
       QueryEngine.matchCond tn.data (QueryEngine.endWord false a) (m ++ b) = true →
       (QueryEngine.substitute_table_name tn frq q).data =
         a ++ (('(' :: frq.data ++ [')']) ++
           QueryEngine.substFrom tn.data ('(' :: frq.data ++ [')']) true b)) ∧
    (QueryEngine.hasMatch tn.data false q.data = false →
       QueryEngine.substitute_table_name tn frq q = q) := by
  have _ := hword
  constructor
  · intro a m b hq hci hscan hmc
    show QueryEngine.substAux tn.data ('(' :: frq.data ++ [')']) q.data = _
    rw [hq]
    exact substFrom_append hne m b hci a false hscan hmc
  · intro h
    have hdata : (QueryEngine.substitute_table_name tn frq q).data = q.data :=
      substFrom_id q.data false h
    calc QueryEngine.substitute_table_name tn frq q
        = String.mk ((QueryEngine.substitute_table_name tn frq q).data) := rfl
      _ = String.mk q.data := by rw [hdata]
      _ = q := rfl

/-- C1 witness: with table name `data`, the whole-word occurrence `DATA` is
replaced (any casing) while `mydata` and `datax` are left alone; a query
whose only occurrences sit inside longer identifiers is unchanged. -/
theorem substitute_table_name_spec_witness :
    QueryEngine.substitute_table_name "data" "FRQ" "select mydata, datax from DATA" =
      "select mydata, datax from (FRQ)" ∧
    QueryEngine.substitute_table_name "data" "FRQ" "select mydata, datax from tbl" =
      "select mydata, datax from tbl" := by
  constructor
  · have h := (substitute_table_name_spec "data" "FRQ" "select mydata, datax from DATA"
        (by decide) (by decide)).1
        "select mydata, datax from ".data "DATA".data [] (by decide) (by decide)
        (by decide) (by decide)
    have h2 : (QueryEngine.substitute_table_name "data" "FRQ"
        "select mydata, datax from DATA").data =
        "select mydata, datax from (FRQ)".data := by
      rw [h]; decide
    calc QueryEngine.substitute_table_name "data" "FRQ" "select mydata, datax from DATA"
        = String.mk ((QueryEngine.substitute_table_name "data" "FRQ"
            "select mydata, datax from DATA").data) := rfl
      _ = String.mk ("select mydata, datax from (FRQ)".data) := by rw [h2]
      _ = "select mydata, datax from (FRQ)" := rfl
  · exact (substitute_table_name_spec "data" "FRQ" "select mydata, datax from tbl"
      (by decide) (by decide)).2 (by decide)
